import Mathlib

/-!
# Verification of the sophia RDF core against its specification

This file embeds the core of the `sophia` crate in Lean 4:

* `src/term/iri_rfc3987.rs` — the RFC 3987 IRI machinery: the `ParsedIri`
  decomposition, its renderer `to_string`, reference resolution `join`,
  the helpers `merge` and `remove_dot_segments`, and the two validation
  regular expressions `IRI_REGEX` / `IRELATIVE_REF_REGEX`.
* `src/graph/_ext_impl.rs` — `MutableGraph` implementations for
  `Vec<[BoxTerm;3]>` (sequence container) and `HashSet<[BoxTerm;3]>`
  (set container).
* `src/term/factory.rs` — the interning term factories built on
  `WeakHashSet`.

Strings are embedded as `List Char` inside the IRI machinery (with
`String` wrappers at the API boundary), machine integers as `Nat`.
-/

namespace Sophia

/-! ## Character classes of RFC 3987

These mirror the character classes appearing in `IRI_REGEX` and
`IRELATIVE_REF_REGEX` (src/term/iri_rfc3987.rs, lines 214-437), which
themselves transcribe the RFC 3987 productions `iunreserved`,
`sub-delims`, `ucschar`, `iprivate`, `ipchar`, etc. -/

def isAlphaCh (c : Char) : Bool :=
  decide (('A' ≤ c ∧ c ≤ 'Z') ∨ ('a' ≤ c ∧ c ≤ 'z'))

def isDigitCh (c : Char) : Bool :=
  decide ('0' ≤ c ∧ c ≤ '9')

def isHexDig (c : Char) : Bool :=
  isDigitCh c || decide (('a' ≤ c ∧ c ≤ 'f') ∨ ('A' ≤ c ∧ c ≤ 'F'))

/-- Tail characters of a scheme: `[-A-Za-z0-9+.]`. -/
def isSchemeChar (c : Char) : Bool :=
  isAlphaCh c || isDigitCh c || decide (c = '+' ∨ c = '-' ∨ c = '.')

/-- `ucschar` of RFC 3987: the Unicode ranges admitted in `iunreserved`. -/
def isUcschar (c : Char) : Bool :=
  decide ((0xA0 ≤ c.toNat ∧ c.toNat ≤ 0xD7FF) ∨
    (0xF900 ≤ c.toNat ∧ c.toNat ≤ 0xFDCF) ∨
    (0xFDF0 ≤ c.toNat ∧ c.toNat ≤ 0xFFEF) ∨
    (0x10000 ≤ c.toNat ∧ c.toNat ≤ 0x1FFFD) ∨
    (0x20000 ≤ c.toNat ∧ c.toNat ≤ 0x2FFFD) ∨
    (0x30000 ≤ c.toNat ∧ c.toNat ≤ 0x3FFFD) ∨
    (0x40000 ≤ c.toNat ∧ c.toNat ≤ 0x4FFFD) ∨
    (0x50000 ≤ c.toNat ∧ c.toNat ≤ 0x5FFFD) ∨
    (0x60000 ≤ c.toNat ∧ c.toNat ≤ 0x6FFFD) ∨
    (0x70000 ≤ c.toNat ∧ c.toNat ≤ 0x7FFFD) ∨
    (0x80000 ≤ c.toNat ∧ c.toNat ≤ 0x8FFFD) ∨
    (0x90000 ≤ c.toNat ∧ c.toNat ≤ 0x9FFFD) ∨
    (0xA0000 ≤ c.toNat ∧ c.toNat ≤ 0xAFFFD) ∨
    (0xB0000 ≤ c.toNat ∧ c.toNat ≤ 0xBFFFD) ∨
    (0xC0000 ≤ c.toNat ∧ c.toNat ≤ 0xCFFFD) ∨
    (0xD0000 ≤ c.toNat ∧ c.toNat ≤ 0xDFFFD) ∨
    (0xE1000 ≤ c.toNat ∧ c.toNat ≤ 0xEFFFD))

/-- `iprivate` of RFC 3987 (admitted in `iquery` only). -/
def isIprivate (c : Char) : Bool :=
  decide ((0xE000 ≤ c.toNat ∧ c.toNat ≤ 0xF8FF) ∨
    (0xF0000 ≤ c.toNat ∧ c.toNat ≤ 0xFFFFD) ∨
    (0x100000 ≤ c.toNat ∧ c.toNat ≤ 0x10FFFD))

/-- `iunreserved` = ALPHA / DIGIT / `-` / `.` / `_` / `~` / ucschar. -/
def isIunreservedChar (c : Char) : Bool :=
  isAlphaCh c || isDigitCh c ||
    decide (c = '-' ∨ c = '.' ∨ c = '_' ∨ c = '~') || isUcschar c

/-- `sub-delims` = `!$&'()*+,;=` (`Char.ofNat 39` is the apostrophe). -/
def isSubDelimChar (c : Char) : Bool :=
  decide (c = '!' ∨ c = '$' ∨ c = '&' ∨ c = Char.ofNat 39 ∨ c = '(' ∨
    c = ')' ∨ c = '*' ∨ c = '+' ∨ c = ',' ∨ c = ';' ∨ c = '=')

/-- Characters of `iuserinfo` (beside pct-encoded):
`iunreserved / sub-delims / ":"`. -/
def isIuserinfoChar (c : Char) : Bool :=
  isIunreservedChar c || isSubDelimChar c || decide (c = ':')

/-- Characters of `ireg-name` (beside pct-encoded):
`iunreserved / sub-delims`. -/
def isIregNameChar (c : Char) : Bool :=
  isIunreservedChar c || isSubDelimChar c

/-- Characters of `ipchar` (beside pct-encoded):
`iunreserved / sub-delims / ":" / "@"`. -/
def isIpchar (c : Char) : Bool :=
  isIunreservedChar c || isSubDelimChar c || decide (c = ':' ∨ c = '@')

/-- Characters of `isegment-nz-nc` (beside pct-encoded): `ipchar` without
the colon. -/
def isIsegNzNcChar (c : Char) : Bool :=
  isIunreservedChar c || isSubDelimChar c || decide (c = '@')

/-- Characters of `iquery` (beside pct-encoded):
`ipchar / iprivate / "/" / "?"`. -/
def isIqueryChar (c : Char) : Bool :=
  isIpchar c || isIprivate c || decide (c = '/' ∨ c = '?')

/-- Characters of `ifragment` (beside pct-encoded):
`ipchar / "/" / "?"`. -/
def isIfragmentChar (c : Char) : Bool :=
  isIpchar c || decide (c = '/' ∨ c = '?')

/-- Characters allowed after the dot in `ipvfuture`:
`unreserved / sub-delims / ":"` (ASCII only). -/
def isIpvFutureChar (c : Char) : Bool :=
  isAlphaCh c || isDigitCh c ||
    decide (c = '-' ∨ c = '.' ∨ c = '_' ∨ c = '~') ||
    isSubDelimChar c || decide (c = ':')

end Sophia

namespace Sophia

/-! ## Parsing primitives

The pest grammar file `iri_rfc3987.pest` referenced by
`src/term/iri_rfc3987.rs` (line 36) is not part of the sources at hand;
per the specification it holds "the full IRI / irelative-ref productions
of RFC 3987", parsed with pest's PEG semantics (ordered choice, greedy
repetition).  The parsing functions below are modelled from the spec on
that basis; the walk that turns the parse tree into a `ParsedIri`
faithfully follows `ParsedIri::fill_with`
(src/term/iri_rfc3987.rs, lines 60-114). -/

/-- Greedy span of characters satisfying `p`: the longest prefix all of
whose characters satisfy `p`, together with the remainder. -/
def spanP (p : Char → Bool) : List Char → (List Char × List Char)
  | [] => ([], [])
  | c :: cs =>
    if p c then
      let r := spanP p cs
      (c :: r.1, r.2)
    else ([], c :: cs)

theorem spanP_append (p : Char → Bool) :
    ∀ cs : List Char, (spanP p cs).1 ++ (spanP p cs).2 = cs := by
  intro cs
  induction cs with
  | nil => simp [spanP]
  | cons c cs ih =>
    by_cases h : p c <;> simp [spanP, h, ih]

/-- Greedy span of a `( class-char | pct-encoded )*` repetition: consumes
characters satisfying `p` and well-formed `%HH` escapes, stopping at the
first character that fits neither. -/
def pctSpan (p : Char → Bool) : List Char → (List Char × List Char)
  | [] => ([], [])
  | c :: cs =>
    if p c then
      let r := pctSpan p cs
      (c :: r.1, r.2)
    else if c = '%' then
      match cs with
      | h1 :: h2 :: cs2 =>
        if isHexDig h1 && isHexDig h2 then
          let r := pctSpan p cs2
          (c :: h1 :: h2 :: r.1, r.2)
        else ([], c :: cs)
      | _ => ([], c :: cs)
    else ([], c :: cs)

theorem pctSpan_cons (p : Char → Bool) (c : Char) (cs : List Char) :
    pctSpan p (c :: cs) =
      if p c then
        (c :: (pctSpan p cs).1, (pctSpan p cs).2)
      else if c = '%' then
        match cs with
        | h1 :: h2 :: cs2 =>
          if isHexDig h1 && isHexDig h2 then
            (c :: h1 :: h2 :: (pctSpan p cs2).1, (pctSpan p cs2).2)
          else ([], c :: cs)
        | _ => ([], c :: cs)
      else ([], c :: cs) := by
  conv_lhs => rw [pctSpan.eq_def]

theorem pctSpan_append (p : Char → Bool) :
    ∀ cs : List Char, (pctSpan p cs).1 ++ (pctSpan p cs).2 = cs
  | [] => by simp [pctSpan]
  | c :: cs => by
    rw [pctSpan_cons]
    by_cases h : p c
    · simp [h, pctSpan_append p cs]
    · by_cases hp : c = '%'
      · subst hp
        match cs with
        | [] => simp [h]
        | [c1] => simp [h]
        | h1 :: h2 :: cs2 =>
          by_cases hh : isHexDig h1 && isHexDig h2
          · simpa [h, hh] using pctSpan_append p cs2
          · simp [h, hh]
      · simp [h, hp]

/-- Characters of path segments are drawn from a class `p` that excludes
the separator; both classes used for segments also admit pct-encoding.
`slashSegsAux p cur cs` scans the remainder of a `( "/" isegment )*`
repetition: `cur` is the reversed partial current segment.  It returns
the list of segments (one per `/`, in order) and the unconsumed rest. -/
def slashSegsAux (p : Char → Bool) (cur : List Char) :
    List Char → (List (List Char) × List Char)
  | [] => ([cur.reverse], [])
  | c :: cs =>
    if c = '/' then
      let r := slashSegsAux p [] cs
      (cur.reverse :: r.1, r.2)
    else if p c then slashSegsAux p (c :: cur) cs
    else if c = '%' then
      match cs with
      | h1 :: h2 :: cs2 =>
        if isHexDig h1 && isHexDig h2 then
          slashSegsAux p (h2 :: h1 :: '%' :: cur) cs2
        else ([cur.reverse], c :: cs)
      | _ => ([cur.reverse], c :: cs)
    else ([cur.reverse], c :: cs)

theorem slashSegsAux_cons (p : Char → Bool) (cur : List Char) (c : Char)
    (cs : List Char) :
    slashSegsAux p cur (c :: cs) =
      if c = '/' then
        ((cur.reverse : List Char) :: (slashSegsAux p [] cs).1,
          (slashSegsAux p [] cs).2)
      else if p c then slashSegsAux p (c :: cur) cs
      else if c = '%' then
        match cs with
        | h1 :: h2 :: cs2 =>
          if isHexDig h1 && isHexDig h2 then
            slashSegsAux p (h2 :: h1 :: '%' :: cur) cs2
          else ([cur.reverse], c :: cs)
        | _ => ([cur.reverse], c :: cs)
      else ([cur.reverse], c :: cs) := by
  conv_lhs => rw [slashSegsAux.eq_def]

/-- `( "/" isegment )*` (pest-greedy): returns one segment per `/`.  An
input not starting with `/` yields no segments and is left untouched. -/
def slashSegs (p : Char → Bool) : List Char → (List (List Char) × List Char)
  | '/' :: cs => slashSegsAux p [] cs
  | cs => ([], cs)

/-- Rendering counterpart of segment lists: `Vec::join("/")`
(used by `ParsedIri::to_string`, src/term/iri_rfc3987.rs line 130). -/
def joinSlash : List (List Char) → List Char
  | [] => []
  | [s] => s
  | s :: rest => s ++ '/' :: joinSlash rest

theorem slashSegsAux_ne_nil (p : Char → Bool) :
    ∀ (cs : List Char) (cur : List Char), (slashSegsAux p cur cs).1 ≠ []
  | [], cur => by simp [slashSegsAux]
  | c :: cs, cur => by
    rw [slashSegsAux_cons]
    by_cases h : c = '/'
    · simp [h]
    · by_cases hp : p c
      · simpa [h, hp] using slashSegsAux_ne_nil p cs (c :: cur)
      · by_cases hpct : c = '%'
        · subst hpct
          match cs with
          | [] => simp [h, hp]
          | [c1] => simp [h, hp]
          | h1 :: h2 :: cs2 =>
            by_cases hh : isHexDig h1 && isHexDig h2
            · simpa [h, hp, hh] using
                slashSegsAux_ne_nil p cs2 (h2 :: h1 :: '%' :: cur)
            · simp [h, hp, hh]
        · simp [h, hp, hpct]

theorem joinSlash_cons_ne (s : List Char) (rest : List (List Char))
    (h : rest ≠ []) : joinSlash (s :: rest) = s ++ '/' :: joinSlash rest := by
  cases rest with
  | nil => exact absurd rfl h
  | cons t ts => rfl

/-- Consumed-text identity for the segment scanner: the segments it
returns, joined by `/`, followed by the rest, rebuild `cur.reverse`
followed by the input. -/
theorem slashSegsAux_append (p : Char → Bool) :
    ∀ (cs : List Char) (cur : List Char),
      joinSlash (slashSegsAux p cur cs).1 ++ (slashSegsAux p cur cs).2 =
        cur.reverse ++ cs
  | [], cur => by simp [slashSegsAux, joinSlash]
  | c :: cs, cur => by
    rw [slashSegsAux_cons]
    by_cases h : c = '/'
    · subst h
      have hne := slashSegsAux_ne_nil p cs []
      have ih := slashSegsAux_append p cs []
      simp only [if_pos rfl, if_true]
      rw [joinSlash_cons_ne _ _ hne, List.append_assoc, List.cons_append]
      rw [show (joinSlash (slashSegsAux p [] cs).1 ++
        (slashSegsAux p [] cs).2) = cs by rw [ih]; simp]
    · by_cases hp : p c
      · have ih := slashSegsAux_append p cs (c :: cur)
        rw [if_neg h, if_pos hp, ih]
        simp
      · by_cases hpct : c = '%'
        · subst hpct
          match cs with
          | [] => simp [h, hp, joinSlash]
          | [c1] => simp [h, hp, joinSlash]
          | h1 :: h2 :: cs2 =>
            by_cases hh : isHexDig h1 && isHexDig h2
            · have ih := slashSegsAux_append p cs2 (h2 :: h1 :: '%' :: cur)
              rw [if_neg h, if_neg hp]
              simp only [hh, if_pos]
              rw [ih]
              simp
            · simp [h, hp, hh, joinSlash]
        · simp [h, hp, hpct, joinSlash]

end Sophia

namespace Sophia

/-! ## Host productions

`ihost = IP-literal / IPv4address / ireg-name`.  The bracketed
`IP-literal` content is validated against the RFC 3986 `IPv6address` /
`IPvFuture` productions by the checkers below (modelled from the spec:
the grammar file holding these productions is not among the sources).
Every `IPv4address` is also a valid `ireg-name` spanning at least as
far, so the deterministic host parser folds the second and third
alternatives into one `ireg-name` span. -/

/-- `dec-octet`: `0-9 / 10-99 / 100-199 / 200-249 / 250-255`
(as spelled in IRI_REGEX, src/term/iri_rfc3987.rs line 277). -/
def isDecOctet : List Char → Bool
  | [c] => isDigitCh c
  | [c1, c2] => decide ('1' ≤ c1 ∧ c1 ≤ '9') && isDigitCh c2
  | [c1, c2, c3] =>
    (c1 == '1' && isDigitCh c2 && isDigitCh c3) ||
    (c1 == '2' && decide ('0' ≤ c2 ∧ c2 ≤ '4') && isDigitCh c3) ||
    (c1 == '2' && c2 == '5' && decide ('0' ≤ c3 ∧ c3 ≤ '5'))
  | _ => false

/-- `IPv4address = dec-octet "." dec-octet "." dec-octet "." dec-octet`. -/
def isIPv4address (cs : List Char) : Bool :=
  let parts := cs.splitOn '.'
  parts.length == 4 && parts.all isDecOctet

/-- `h16`: one to four hexadecimal digits. -/
def isH16 (cs : List Char) : Bool :=
  decide (1 ≤ cs.length ∧ cs.length ≤ 4) && cs.all isHexDig

/-- Split at the first `::`, if any. -/
def splitDoubleColon : List Char → Option (List Char × List Char)
  | ':' :: ':' :: rest => some ([], rest)
  | c :: cs => (splitDoubleColon cs).map (fun pr => (c :: pr.1, pr.2))
  | [] => none

/-- The `:`-separated units of a (possibly empty) address half. -/
def colonUnits (cs : List Char) : List (List Char) :=
  if cs = [] then [] else cs.splitOn ':'

/-- `IPv6address` of RFC 3986: either eight `h16` groups (the last two
replaceable by an `IPv4address`), or a single `::` compressing at least
one zero group, with the remaining units (an `IPv4address` tail counting
for two) numbering at most seven. -/
def isIPv6address (cs : List Char) : Bool :=
  match splitDoubleColon cs with
  | none =>
    let us := colonUnits cs
    (us.length == 8 && us.all isH16) ||
    (us.length == 7 && (us.take 6).all isH16 &&
      isIPv4address (us.getLast?.getD []))
  | some (l, r) =>
    let lus := colonUnits l
    let rus := colonUnits r
    lus.all isH16 &&
    ((rus.all isH16 && decide (lus.length + rus.length ≤ 7)) ||
     (!rus.isEmpty && rus.dropLast.all isH16 &&
      isIPv4address (rus.getLast?.getD []) &&
      decide (lus.length + rus.length + 1 ≤ 7)))

/-- `IPvFuture = "v" 1*HEXDIG "." 1*( unreserved / sub-delims / ":" )`. -/
def isIPvFuture : List Char → Bool
  | 'v' :: rest =>
    let r := spanP isHexDig rest
    !r.1.isEmpty &&
      (match r.2 with
       | '.' :: r2 => !r2.isEmpty && r2.all isIpvFutureChar
       | _ => false)
  | _ => false

/-- `IP-literal = "[" ( IPv6address / IPvFuture ) "]"`: consumes the
bracketed span when its content satisfies one of the two productions. -/
def parseIpLiteral : List Char → Option (List Char × List Char)
  | '[' :: rest =>
    let r := spanP (fun c => !(c == ']')) rest
    match r.2 with
    | ']' :: r2 =>
      if isIPv6address r.1 || isIPvFuture r.1 then
        some ('[' :: (r.1 ++ [']']), r2)
      else none
    | _ => none
  | _ => none

/-- `( iuserinfo "@" )?`: pest tries the group and backtracks wholly when
no `@` follows the userinfo span. -/
def parseUserinfoAt (cs : List Char) : (List Char × List Char) :=
  let r := pctSpan isIuserinfoChar cs
  match r.2 with
  | '@' :: r2 => (r.1 ++ ['@'], r2)
  | _ => ([], cs)

/-- `ihost` (see the section comment for the IPv4/ireg-name folding). -/
def parseIhost (cs : List Char) : (List Char × List Char) :=
  match parseIpLiteral cs with
  | some (h, r) => (h, r)
  | none => pctSpan isIregNameChar cs

/-- `( ":" port )?` with `port = *DIGIT`. -/
def parsePortColon : List Char → (List Char × List Char)
  | ':' :: r =>
    let d := spanP isDigitCh r
    (':' :: d.1, d.2)
  | cs => ([], cs)

/-- `iauthority = ( iuserinfo "@" )? ihost ( ":" port )?`.
`ParsedIri::fill_with` stores the whole consumed span
(src/term/iri_rfc3987.rs, lines 85-88). -/
def parseIauthority (cs : List Char) : (List Char × List Char) :=
  let ui := parseUserinfoAt cs
  let h := parseIhost ui.2
  let pt := parsePortColon h.2
  (ui.1 ++ h.1 ++ pt.1, pt.2)

end Sophia

namespace Sophia

/-! ## The `ParsedIri` decomposition

`ParsedIri` (src/term/iri_rfc3987.rs, lines 39-46) and the result of
`ParsedIri::fill_with` for each grammar production:

* `scheme`, `iquery`, `ifragment`, `iauthority`: the consumed span;
* `ipath_abempty`: a leading `""` then one segment per `/`, nothing when
  the span is empty (lines 89-94);
* `ipath_absolute`: a leading `""` then the inner segments (lines 95-98);
* `ipath_noscheme` / `ipath_rootless`: the inner segments (lines 99-102);
* `ipath_empty`: nothing (line 103). -/

structure ParsedIri where
  scheme : Option (List Char) := none
  authority : Option (List Char) := none
  path : List (List Char) := []
  query : Option (List Char) := none
  fragment : Option (List Char) := none
deriving DecidableEq, Repr

/-- `scheme = ALPHA *( ALPHA / DIGIT / "+" / "-" / "." )`. -/
def parseScheme : List Char → Option (List Char × List Char)
  | c :: cs =>
    if isAlphaCh c then
      let r := spanP isSchemeChar cs
      some (c :: r.1, r.2)
    else none
  | [] => none

/-- `ihier_part = "//" iauthority ipath_abempty / ipath_absolute /
ipath_rootless / ipath_empty` (ordered PEG choice), returning
`fill_with`-shaped fields: the optional authority span, the path
segments, and the unconsumed rest. -/
def parseIhierPart : List Char → (Option (List Char) × List (List Char) × List Char)
  | '/' :: '/' :: r =>
    let a := parseIauthority r
    let s := slashSegs isIpchar a.2
    (some a.1, (if s.1.isEmpty then [] else [] :: s.1), s.2)
  | '/' :: r =>
    let s1 := pctSpan isIpchar r
    if s1.1.isEmpty then (none, [[]], r)
    else
      let s := slashSegs isIpchar s1.2
      (none, [] :: s1.1 :: s.1, s.2)
  | cs =>
    let s1 := pctSpan isIpchar cs
    if s1.1.isEmpty then (none, [], cs)
    else
      let s := slashSegs isIpchar s1.2
      (none, s1.1 :: s.1, s.2)

/-- `irelative_part = "//" iauthority ipath_abempty / ipath_absolute /
ipath_noscheme / ipath_empty`: as `ihier_part`, but the first segment of
a rootless path must avoid `:` (`isegment-nz-nc`). -/
def parseIrelativePart : List Char → (Option (List Char) × List (List Char) × List Char)
  | '/' :: '/' :: r =>
    let a := parseIauthority r
    let s := slashSegs isIpchar a.2
    (some a.1, (if s.1.isEmpty then [] else [] :: s.1), s.2)
  | '/' :: r =>
    let s1 := pctSpan isIpchar r
    if s1.1.isEmpty then (none, [[]], r)
    else
      let s := slashSegs isIpchar s1.2
      (none, [] :: s1.1 :: s.1, s.2)
  | cs =>
    let s1 := pctSpan isIsegNzNcChar cs
    if s1.1.isEmpty then (none, [], cs)
    else
      let s := slashSegs isIpchar s1.2
      (none, s1.1 :: s.1, s.2)

/-- `( "?" iquery )?`. -/
def parseQueryOpt : List Char → (Option (List Char) × List Char)
  | '?' :: r =>
    let q := pctSpan isIqueryChar r
    (some q.1, q.2)
  | cs => (none, cs)

/-- `( "#" ifragment )?`. -/
def parseFragmentOpt : List Char → (Option (List Char) × List Char)
  | '#' :: r =>
    let f := pctSpan isIfragmentChar r
    (some f.1, f.2)
  | cs => (none, cs)

/-- The `iri` production:
`scheme ":" ihier_part ( "?" iquery )? ( "#" ifragment )?`. -/
def parseIriRule (cs : List Char) : Option (ParsedIri × List Char) :=
  match parseScheme cs with
  | some (sch, r1) =>
    match r1 with
    | ':' :: r2 =>
      let hp := parseIhierPart r2
      let q := parseQueryOpt hp.2.2
      let f := parseFragmentOpt q.2
      some ({ scheme := some sch, authority := hp.1, path := hp.2.1,
              query := q.1, fragment := f.1 }, f.2)
    | _ => none
  | none => none

/-- The `irelative_ref` production:
`irelative_part ( "?" iquery )? ( "#" ifragment )?` (never fails; it can
consume nothing via `ipath_empty`). -/
def parseIrelativeRefRule (cs : List Char) : ParsedIri × List Char :=
  let rp := parseIrelativePart cs
  let q := parseQueryOpt rp.2.2
  let f := parseFragmentOpt q.2
  ({ scheme := none, authority := rp.1, path := rp.2.1,
     query := q.1, fragment := f.1 }, f.2)

/-- `ParsedIri::new` (src/term/iri_rfc3987.rs, lines 54-58): parse
`main = SOI ( iri / irelative_ref ) EOI`.  Pest commits to the `iri`
alternative once it succeeds, so a leftover rest after a successful
`iri` is a parse error even if `irelative_ref` would match further. -/
def ParsedIri.new (txt : String) : Option ParsedIri :=
  match parseIriRule txt.data with
  | some (pi, rest) => if rest = [] then some pi else none
  | none =>
    let r := parseIrelativeRefRule txt.data
    if r.2 = [] then some r.1 else none

/-- `ParsedIri::to_string` (src/term/iri_rfc3987.rs, lines 120-140), on
`List Char`: scheme `:`; `//` authority; the path joined by `/`;
`?` query; `#` fragment. -/
def ParsedIri.render (pi : ParsedIri) : List Char :=
  (match pi.scheme with | some s => s ++ [':'] | none => []) ++
  (match pi.authority with | some a => '/' :: '/' :: a | none => []) ++
  joinSlash pi.path ++
  (match pi.query with | some q => '?' :: q | none => []) ++
  (match pi.fragment with | some f => '#' :: f | none => [])

def ParsedIri.to_string (pi : ParsedIri) : String := String.mk pi.render

/-- `ParsedIri::is_absolute` (src/term/iri_rfc3987.rs, lines 116-118). -/
def ParsedIri.is_absolute (pi : ParsedIri) : Bool := pi.scheme.isSome

/-! ## Reference resolution -/

/-- `merge` (src/term/iri_rfc3987.rs, lines 180-188).  `base.path.len()-1`
is `usize` arithmetic: on an empty path it wraps to `usize::MAX` (release
semantics) and `take` of an empty vector yields nothing either way, which
is exactly what truncated `Nat` subtraction gives here. -/
def merge (base : ParsedIri) (path : List (List Char)) : List (List Char) :=
  (if base.authority.isSome ∧ base.path.length = 0 then [([] : List Char)]
   else []) ++
  base.path.take (base.path.length - 1) ++ path

/-- The while-loop of `remove_dot_segments` (src/term/iri_rfc3987.rs,
lines 199-211).  The source walks `path` in place with an index `i`,
only ever removing at positions `≤ i`; `done` is the prefix of survivors
`path[0..i]` (so `i = done.length` and `path[0] = done.head?`) and
`todo` the untouched suffix `path[i..]`. -/
def rdsLoop : List (List Char) → List (List Char) → List (List Char)
  | done, [] => done
  | done, seg :: todo =>
    if seg = ['.'] then rdsLoop done todo
    else if seg = ['.', '.'] then
      if done.length ≠ 0 ∧ (done.length ≠ 1 ∨ done.head? ≠ some []) then
        rdsLoop done.dropLast todo
      else rdsLoop done todo
    else rdsLoop (done ++ [seg]) todo

/-- `remove_dot_segments` (src/term/iri_rfc3987.rs, lines 190-212). -/
def remove_dot_segments (path : List (List Char)) : List (List Char) :=
  if path = [] then path
  else
    let path2 :=
      if path.getLast? = some ['.'] ∨ path.getLast? = some ['.', '.'] then
        path ++ [[]]
      else path
    rdsLoop [] path2

/-- `ParsedIri::join` (src/term/iri_rfc3987.rs, lines 142-177). -/
def ParsedIri.join (self iri_ref : ParsedIri) : ParsedIri :=
  if iri_ref.scheme.isSome then
    { scheme := iri_ref.scheme, authority := iri_ref.authority,
      path := remove_dot_segments iri_ref.path,
      query := iri_ref.query, fragment := iri_ref.fragment }
  else if iri_ref.authority.isSome then
    { scheme := self.scheme, authority := iri_ref.authority,
      path := remove_dot_segments iri_ref.path,
      query := iri_ref.query, fragment := iri_ref.fragment }
  else if iri_ref.path.length = 0 then
    { scheme := self.scheme, authority := self.authority,
      path := self.path,
      query := (match iri_ref.query with
                | some q => some q
                | none => self.query),
      fragment := iri_ref.fragment }
  else if iri_ref.path.head? = some [] then
    { scheme := self.scheme, authority := self.authority,
      path := remove_dot_segments iri_ref.path,
      query := iri_ref.query, fragment := iri_ref.fragment }
  else
    { scheme := self.scheme, authority := self.authority,
      path := remove_dot_segments (merge self iri_ref.path),
      query := iri_ref.query, fragment := iri_ref.fragment }

end Sophia

namespace Sophia

/-! ## Specification-side counterparts

These restate, in the specification's own words, the operations `merge`,
`remove_dot_segments` and `join`; the theorems below compare them with
the embeddings of the source. -/

/-- Modelled from the spec (§4.1, `merge`): `[""] ++ P` when the base
has an authority and an empty path, else all but the last segment of the
base's path followed by `P`. -/
def mergeSpec (B : ParsedIri) (P : List (List Char)) : List (List Char) :=
  if B.authority.isSome ∧ B.path = [] then [] :: P
  else B.path.dropLast ++ P

/-- Modelled from the spec (§4.1, `remove_dot_segments`): the
left-to-right walk.  `acc` holds the surviving segments so far; a `.`
segment is deleted; a `..` segment deletes itself and the preceding
survivor, unless that would remove the leading `""` (the absolute-path
root), in which case only the `..` goes. -/
def rdsSpecWalk (acc : List (List Char)) : List (List Char) → List (List Char)
  | [] => acc
  | seg :: rest =>
    if seg = ['.'] then rdsSpecWalk acc rest
    else if seg = ['.', '.'] then
      if acc = [[]] then rdsSpecWalk acc rest
      else rdsSpecWalk acc.dropLast rest
    else rdsSpecWalk (acc ++ [seg]) rest

/-- Modelled from the spec (§4.1, `remove_dot_segments`): append a
trailing `""` when the final segment is `.` or `..`, then walk. -/
def rdsSpec (path : List (List Char)) : List (List Char) :=
  rdsSpecWalk []
    (if path.getLast? = some ['.'] ∨ path.getLast? = some ['.', '.'] then
      path ++ [[]]
    else path)

/-- Modelled from the spec (§4.1, Reference resolution): the five-case
transformation of RFC 3986 §5.3, with `T.fragment = R.fragment` in all
cases, phrased with the spec-side `rdsSpec` and `mergeSpec`. -/
def joinSpec (B R : ParsedIri) : ParsedIri :=
  if R.scheme.isSome then
    { scheme := R.scheme, authority := R.authority,
      path := rdsSpec R.path, query := R.query, fragment := R.fragment }
  else if R.authority.isSome then
    { scheme := B.scheme, authority := R.authority,
      path := rdsSpec R.path, query := R.query, fragment := R.fragment }
  else if R.path = [] then
    { scheme := B.scheme, authority := B.authority, path := B.path,
      query := (if R.query.isSome then R.query else B.query),
      fragment := R.fragment }
  else if R.path.head? = some [] then
    { scheme := B.scheme, authority := B.authority,
      path := rdsSpec R.path, query := R.query, fragment := R.fragment }
  else
    { scheme := B.scheme, authority := B.authority,
      path := rdsSpec (mergeSpec B R.path), query := R.query,
      fragment := R.fragment }

theorem merge_eq_mergeSpec (B : ParsedIri) (P : List (List Char)) :
    merge B P = mergeSpec B P := by
  unfold merge mergeSpec
  by_cases h : B.authority.isSome ∧ B.path = []
  · rw [if_pos h]
    rw [if_pos (show B.authority.isSome ∧ B.path.length = 0 by
      exact ⟨h.1, by rw [h.2]; rfl⟩)]
    rw [h.2]
    rfl
  · have h2 : ¬(B.authority.isSome ∧ B.path.length = 0) := by
      intro hc
      exact h ⟨hc.1, List.length_eq_zero.mp hc.2⟩
    rw [if_neg h, if_neg h2, List.dropLast_eq_take]
    rfl

theorem rdsLoop_eq_walk (todo : List (List Char)) :
    ∀ done, rdsLoop done todo = rdsSpecWalk done todo := by
  induction todo with
  | nil => intro done; rfl
  | cons seg rest ih =>
    intro done
    by_cases h1 : seg = ['.']
    · simp only [rdsLoop, rdsSpecWalk, if_pos h1]
      exact ih done
    · by_cases h2 : seg = ['.', '.']
      · simp only [rdsLoop, rdsSpecWalk, if_neg h1, if_pos h2]
        by_cases hd1 : done = [[]]
        · subst hd1
          rw [if_neg (by simp), if_pos rfl]
          exact ih [[]]
        · by_cases hd0 : done = []
          · subst hd0
            rw [if_neg (by simp), if_neg hd1]
            exact ih []
          · have hg : done.length ≠ 0 ∧
                (done.length ≠ 1 ∨ done.head? ≠ some []) := by
              match done with
              | [] => exact absurd rfl hd0
              | [x] =>
                refine ⟨by simp, Or.inr ?_⟩
                simp only [List.head?_cons, ne_eq, Option.some_inj]
                intro hx
                exact hd1 (by rw [hx])
              | x :: y :: zs => exact ⟨by simp, Or.inl (by simp)⟩
            rw [if_pos hg, if_neg hd1]
            exact ih done.dropLast
      · simp only [rdsLoop, rdsSpecWalk, if_neg h1, if_neg h2]
        exact ih (done ++ [seg])

theorem rds_eq_rdsSpec (path : List (List Char)) :
    remove_dot_segments path = rdsSpec path := by
  unfold remove_dot_segments rdsSpec
  by_cases h : path = []
  · subst h; rfl
  · rw [if_neg h, rdsLoop_eq_walk]

theorem join_eq_joinSpec (B R : ParsedIri) :
    ParsedIri.join B R = joinSpec B R := by
  unfold ParsedIri.join joinSpec
  by_cases h1 : R.scheme.isSome
  · simp [h1, rds_eq_rdsSpec]
  · by_cases h2 : R.authority.isSome
    · simp [h1, h2, rds_eq_rdsSpec]
    · by_cases h3 : R.path = []
      · have h3l : R.path.length = 0 := by rw [h3]; rfl
        cases hq : R.query <;>
          simp [h1, h2, h3, h3l, hq]
      · have h3l : R.path.length ≠ 0 := fun hc =>
          h3 (List.length_eq_zero.mp hc)
        by_cases h4 : R.path.head? = some []
        · simp [h1, h2, h3, h3l, h4, rds_eq_rdsSpec]
        · simp [h1, h2, h3, h3l, h4, rds_eq_rdsSpec, merge_eq_mergeSpec]

end Sophia

namespace Sophia

/-! ## Segments never contain the separator -/

theorem slash_not_hex : isHexDig '/' = false := by decide

theorem slash_not_ipchar : isIpchar '/' = false := by decide

theorem slash_not_nzNc : isIsegNzNcChar '/' = false := by decide

theorem pctSpan_slash_free (p : Char → Bool) (hp : p '/' = false) :
    ∀ cs : List Char, ('/' : Char) ∉ (pctSpan p cs).1
  | [] => by simp [pctSpan]
  | c :: cs => by
    rw [pctSpan_cons]
    by_cases h : p c
    · have hc : ('/' : Char) ≠ c := by
        intro he; rw [← he, hp] at h; cases h
      simp only [if_pos h, List.mem_cons, not_or]
      exact ⟨hc, pctSpan_slash_free p hp cs⟩
    · by_cases hpct : c = '%'
      · subst hpct
        match cs with
        | [] => simp [h]
        | [c1] => simp [h]
        | h1 :: h2 :: cs2 =>
          by_cases hh : isHexDig h1 && isHexDig h2
          · have hx : isHexDig h1 = true ∧ isHexDig h2 = true := by
              constructor <;> simp_all
            have hx1 : ('/' : Char) ≠ h1 := by
              intro he; rw [← he, slash_not_hex] at hx; cases hx.1
            have hx2 : ('/' : Char) ≠ h2 := by
              intro he; rw [← he, slash_not_hex] at hx; cases hx.2
            simp only [if_neg h, if_pos rfl, hh, if_true, List.mem_cons,
              not_or]
            exact ⟨by decide, hx1, hx2, pctSpan_slash_free p hp cs2⟩
          · simp [h, hh]
      · simp [h, hpct]

theorem slashSegsAux_slash_free (p : Char → Bool) (hp : p '/' = false) :
    ∀ (cs cur : List Char), ('/' : Char) ∉ cur →
      ∀ seg ∈ (slashSegsAux p cur cs).1, ('/' : Char) ∉ seg
  | [], cur => by
    intro hcur seg hseg
    simp only [slashSegsAux, List.mem_singleton] at hseg
    subst hseg
    simpa using hcur
  | c :: cs, cur => by
    intro hcur seg hseg
    rw [slashSegsAux_cons] at hseg
    by_cases h : c = '/'
    · simp only [if_pos h, List.mem_cons] at hseg
      rcases hseg with hseg | hseg
      · subst hseg; simpa using hcur
      · exact slashSegsAux_slash_free p hp cs [] (by simp) seg hseg
    · by_cases hc : p c
      · rw [if_neg h, if_pos hc] at hseg
        have hne : ('/' : Char) ∉ (c :: cur) := by
          simp only [List.mem_cons, not_or]
          refine ⟨fun he => ?_, hcur⟩
          rw [← he, hp] at hc
          cases hc
        exact slashSegsAux_slash_free p hp cs (c :: cur) hne seg hseg
      · by_cases hpct : c = '%'
        · subst hpct
          match cs with
          | [] =>
            simp only [if_neg h, if_neg hc, ite_self,
              List.mem_singleton] at hseg
            subst hseg; simpa using hcur
          | [c1] =>
            simp only [if_neg h, if_neg hc, ite_self,
              List.mem_singleton] at hseg
            subst hseg; simpa using hcur
          | h1 :: h2 :: cs2 =>
            by_cases hh : isHexDig h1 && isHexDig h2
            · have hx : isHexDig h1 = true ∧ isHexDig h2 = true := by
                constructor <;> simp_all
              rw [if_neg h, if_neg hc, if_pos rfl] at hseg
              simp only [hh, if_true] at hseg
              have hne : ('/' : Char) ∉ (h2 :: h1 :: '%' :: cur) := by
                simp only [List.mem_cons, not_or]
                refine ⟨fun he => ?_, fun he => ?_, by decide, hcur⟩
                · rw [← he, slash_not_hex] at hx; cases hx.2
                · rw [← he, slash_not_hex] at hx; cases hx.1
              exact slashSegsAux_slash_free p hp cs2
                (h2 :: h1 :: '%' :: cur) hne seg hseg
            · rw [if_neg h, if_neg hc, if_pos rfl] at hseg
              simp only [hh, Bool.false_eq_true, if_false,
                List.mem_singleton] at hseg
              subst hseg; simpa using hcur
        · simp only [if_neg h, if_neg hc, if_neg hpct,
            List.mem_singleton] at hseg
          subst hseg; simpa using hcur

theorem slashSegs_slash_free (p : Char → Bool) (hp : p '/' = false)
    (cs : List Char) : ∀ seg ∈ (slashSegs p cs).1, ('/' : Char) ∉ seg := by
  rw [slashSegs.eq_def]
  split
  · exact slashSegsAux_slash_free p hp _ [] (by simp)
  · simp

end Sophia

namespace Sophia

theorem parseIhierPart_slash_free (cs : List Char) :
    ∀ seg ∈ (parseIhierPart cs).2.1, ('/' : Char) ∉ seg := by
  rw [parseIhierPart.eq_def]
  split
  · intro seg hseg
    simp only at hseg
    split at hseg
    · cases hseg
    · rcases List.mem_cons.mp hseg with hseg | hseg
      · subst hseg; simp
      · exact slashSegs_slash_free isIpchar slash_not_ipchar _ seg hseg
  · intro seg hseg
    simp only at hseg
    split at hseg
    · rcases List.mem_singleton.mp hseg with rfl; simp
    · rcases List.mem_cons.mp hseg with hseg | hseg
      · subst hseg; simp
      · rcases List.mem_cons.mp hseg with hseg | hseg
        · subst hseg
          exact pctSpan_slash_free isIpchar slash_not_ipchar _
        · exact slashSegs_slash_free isIpchar slash_not_ipchar _ seg hseg
  · intro seg hseg
    simp only at hseg
    split at hseg
    · cases hseg
    · rcases List.mem_cons.mp hseg with hseg | hseg
      · subst hseg
        exact pctSpan_slash_free isIpchar slash_not_ipchar _
      · exact slashSegs_slash_free isIpchar slash_not_ipchar _ seg hseg

theorem parseIrelativePart_slash_free (cs : List Char) :
    ∀ seg ∈ (parseIrelativePart cs).2.1, ('/' : Char) ∉ seg := by
  rw [parseIrelativePart.eq_def]
  split
  · intro seg hseg
    simp only at hseg
    split at hseg
    · cases hseg
    · rcases List.mem_cons.mp hseg with hseg | hseg
      · subst hseg; simp
      · exact slashSegs_slash_free isIpchar slash_not_ipchar _ seg hseg
  · intro seg hseg
    simp only at hseg
    split at hseg
    · rcases List.mem_singleton.mp hseg with rfl; simp
    · rcases List.mem_cons.mp hseg with hseg | hseg
      · subst hseg; simp
      · rcases List.mem_cons.mp hseg with hseg | hseg
        · subst hseg
          exact pctSpan_slash_free isIpchar slash_not_ipchar _
        · exact slashSegs_slash_free isIpchar slash_not_ipchar _ seg hseg
  · intro seg hseg
    simp only at hseg
    split at hseg
    · cases hseg
    · rcases List.mem_cons.mp hseg with hseg | hseg
      · subst hseg
        exact pctSpan_slash_free isIsegNzNcChar slash_not_nzNc _
      · exact slashSegs_slash_free isIpchar slash_not_ipchar _ seg hseg

theorem parseIriRule_path (cs : List Char) (pi : ParsedIri) (rest : List Char)
    (h : parseIriRule cs = some (pi, rest)) :
    ∀ seg ∈ pi.path, ('/' : Char) ∉ seg := by
  unfold parseIriRule at h
  split at h
  · split at h
    · simp only [Option.some_inj, Prod.mk.injEq] at h
      obtain ⟨hpi, _⟩ := h
      subst hpi
      exact parseIhierPart_slash_free _
    · cases h
  · cases h

/-- The segments a successful `ParsedIri::new` produces never contain the
separator `/`, packaged as a boolean predicate on the decomposition. -/
def pathSegsSlashFree (pi : ParsedIri) : Bool :=
  pi.path.all (fun seg => decide (('/' : Char) ∉ seg))

theorem new_slash_free (t : String) (pi : ParsedIri)
    (h : ParsedIri.new t = some pi) : pathSegsSlashFree pi = true := by
  have key : ∀ seg ∈ pi.path, ('/' : Char) ∉ seg := by
    unfold ParsedIri.new at h
    cases hrule : parseIriRule t.data with
    | some pr =>
      obtain ⟨pi0, rest⟩ := pr
      rw [hrule] at h
      by_cases hr : rest = []
      · subst hr
        simp only [if_pos rfl, if_true, Option.some_inj] at h
        subst h
        exact parseIriRule_path _ _ _ hrule
      · simp only [hr, if_false, if_neg hr] at h
        cases h
    | none =>
      rw [hrule] at h
      by_cases hr : (parseIrelativeRefRule t.data).2 = []
      · simp only [hr, if_pos rfl, if_true, Option.some_inj] at h
        subst h
        exact parseIrelativePart_slash_free _
      · simp only [if_neg hr] at h
        cases h
  unfold pathSegsSlashFree
  rw [List.all_eq_true]
  intro seg hseg
  exact decide_eq_true (key seg hseg)

end Sophia

namespace Sophia

/-! ## Graph containers (src/graph/_ext_impl.rs)

The element type `[BoxTerm;3]` is a triple of RDF terms.  The `Term`
enum itself is not among the sources at hand; only its decidable
equality matters to the container implementations. -/

/-- Modelled from the spec (§3, Term): a tagged variant with five cases,
each carrying its lexical payloads. -/
inductive ModelTerm where
  | iri (lex : String)
  | bnode (id : String)
  | literalLang (lex tag : String)
  | literalDt (lex dt : String)
  | var (name : String)
deriving DecidableEq

/-- The stored element `[BoxTerm;3]`. -/
abbrev BoxTriple := ModelTerm × ModelTerm × ModelTerm

/-- `MutableGraph::insert` for `Vec<[BoxTerm;3]>`
(src/graph/_ext_impl.rs, lines 50-60): always push, return `Ok(true)`. -/
def vecInsert (g : List BoxTriple) (s p o : ModelTerm) :
    Bool × List BoxTriple :=
  (true, g ++ [(s, p, o)])

/-- `MutableGraph::insert` for `HashSet<[BoxTerm;3]>`
(src/graph/_ext_impl.rs, lines 96-105): delegate to `HashSet::insert`,
which reports whether the element was new.  The unordered deduplicating
container is modelled as a `Finset`. -/
def hashsetInsert (g : Finset BoxTriple) (s p o : ModelTerm) :
    Bool × Finset BoxTriple :=
  (decide ((s, p, o) ∉ g), insert (s, p, o) g)

/-- `MutableGraph::remove` for `HashSet<[BoxTerm;3]>`
(src/graph/_ext_impl.rs, lines 106-115): delegate to `HashSet::remove`,
which reports whether the element was present. -/
def hashsetRemove (g : Finset BoxTriple) (s p o : ModelTerm) :
    Bool × Finset BoxTriple :=
  (decide ((s, p, o) ∈ g), g.erase (s, p, o))

/-! ## Term factories (src/term/factory.rs)

`RcTermFactory` and `ArcTermFactory` are `WeakHashSet`s of weak
references to interned strings; `Rc<str>`/`Arc<str>` equality compares
the pointed-to string, so a holder is modelled by the string it
dereferences to, and the factory state by the list of live entries.
The two flavours differ only in the holder's sharing. -/

abbrev FactoryState := List String

/-- `get_holder` (src/term/factory.rs, lines 80-88 and 100-108):
`WeakHashSet::get(txt)` returns a stored holder equal to `txt` when one
is live; otherwise a fresh holder backed by `txt` is recorded and
returned. -/
def get_holder (f : FactoryState) (txt : String) : String × FactoryState :=
  match f.find? (fun h => h == txt) with
  | some holder => (holder, f)
  | none => (txt, txt :: f)

end Sophia

namespace Sophia

/-! ## Claim theorems: the IRI machinery -/

/-- C1: the parse/render round-trip does not hold for every accepted
input.  The input `"/"` is accepted (it is `ipath_absolute` with no
inner segments) and decomposes to the single-segment path `[""]`, but
`to_string` renders that path as `[""].join("/") = ""`, not `"/"`: the
decomposition cannot tell the path `/` apart from the empty path. -/
theorem c1_roundtrip_fails_at_root :
    ParsedIri.new "/" = some { path := [[]] } ∧
    ({ path := [[]] } : ParsedIri).to_string = "" ∧
    ("" : String) ≠ "/" := by
  refine ⟨by decide, by decide, by decide⟩

/-- C2: reference resolution follows RFC 3986 §5.3 — `join` agrees with
the five-case spec-side transformation `joinSpec` on all inputs (with
`T.fragment = R.fragment` in every case, part of the record equality),
and resolving `"../../../g"` against `"http://a/b/c/d;p?q"` renders to
`"http://a/g"`. -/
theorem c2_join_follows_rfc3986 :
    (∀ B R : ParsedIri, ParsedIri.join B R = joinSpec B R) ∧
    ((ParsedIri.new "http://a/b/c/d;p?q").bind
      (fun b => (ParsedIri.new "../../../g").map
        (fun r => (b.join r).to_string)) = some "http://a/g") := by
  exact ⟨join_eq_joinSpec, by decide⟩

/-- C3: `join` is total — in this embedding it is a total function, and
its one delicate step, `merge`, agrees on every input (including bases
with an empty path, where the source's `base.path.len()-1` underflows
harmlessly under wrapping `usize` semantics) with the manifestly
well-defined `mergeSpec`.  Concretely, joining `"foo"` against the
path-less base `"http://example.org"` succeeds. -/
theorem c3_merge_total :
    (∀ (B : ParsedIri) (P : List (List Char)), merge B P = mergeSpec B P) ∧
    ((ParsedIri.new "http://example.org").bind
      (fun b => (ParsedIri.new "foo").map
        (fun r => (b.join r).to_string)) = some "http://example.org/foo") := by
  exact ⟨merge_eq_mergeSpec, by decide⟩

/-- C4: `remove_dot_segments` behaves as specified — it agrees with the
spec-side `rdsSpec` (append a trailing `""` when the final segment is
`.` or `..`; walk left-to-right deleting `.` and letting `..` delete
itself and the preceding segment unless that would remove the leading
`""`) on every segment list, and the two dot-segment scenarios against
base `"http://a/b/c/d;p?q"` render as stated. -/
theorem c4_remove_dot_segments_spec :
    (∀ p : List (List Char), remove_dot_segments p = rdsSpec p) ∧
    ((ParsedIri.new "http://a/b/c/d;p?q").bind
      (fun b => (ParsedIri.new ".").map
        (fun r => (b.join r).to_string)) = some "http://a/b/c/") ∧
    ((ParsedIri.new "http://a/b/c/d;p?q").bind
      (fun b => (ParsedIri.new "").map
        (fun r => (b.join r).to_string)) = some "http://a/b/c/d;p?q") := by
  exact ⟨rds_eq_rdsSpec, by decide, by decide⟩

/-- C5 counterexample: the accepted input
`"http://example.org/foo/.././/bar"` (one of the repository's own
positive fixtures) decomposes to segments with an *interior* empty
string — the `//` in the middle of the path yields an empty segment
that is neither first nor last, contradicting the claim that interior
empty segments cannot occur. -/
theorem c5_interior_empty_segment :
    (ParsedIri.new "http://example.org/foo/.././/bar").map ParsedIri.path =
      some [[], ['f','o','o'], ['.','.'], ['.'], [], ['b','a','r']] ∧
    ([] : List Char) ∈
      [[], ['f','o','o'], ['.','.'], ['.'], [], ['b','a','r']].tail.dropLast := by
  exact ⟨by decide, by decide⟩

/-- C5 amended: an empty segment may appear anywhere in the segments of
an accepted input — also in the interior, produced by consecutive
slashes — while `.` and `..` appear as literal segments; what does hold
of every segment is that it never contains the separator `/`. -/
theorem c5_segments_slash_free (t : String) (pi : ParsedIri)
    (h : ParsedIri.new t = some pi) : pathSegsSlashFree pi = true :=
  new_slash_free t pi h

/-- Witness for the amended C5 at `"http://a//b"`, whose decomposition
has an interior empty segment and only slash-free segments. -/
theorem c5_segments_slash_free_witness :
    pathSegsSlashFree
      { scheme := some ['h','t','t','p'], authority := some ['a'],
        path := [[], [], ['b']] } = true :=
  c5_segments_slash_free "http://a//b"
    { scheme := some ['h','t','t','p'], authority := some ['a'],
      path := [[], [], ['b']] } (by decide)

/-! ## Claim theorems: containers and factories -/

/-- C7: insert semantics by container kind.  On the sequence container,
`insert` always reports `true` and appends, so two inserts of the same
triple leave two stored copies; on the set container, `insert` reports
`false` exactly when an equal triple was already present, and after an
insert exactly one stored element equals the inserted triple. -/
theorem c7_insert_semantics :
    (∀ (g : List BoxTriple) (s p o : ModelTerm),
      (vecInsert g s p o).1 = true ∧
      (vecInsert g s p o).2 = g ++ [(s, p, o)] ∧
      ((vecInsert (vecInsert g s p o).2 s p o).2.count (s, p, o) =
        g.count (s, p, o) + 2)) ∧
    (∀ (g : Finset BoxTriple) (s p o : ModelTerm),
      ((hashsetInsert g s p o).1 = false ↔ (s, p, o) ∈ g) ∧
      ((hashsetInsert g s p o).2.filter (fun t => t = (s, p, o))).card = 1) := by
  constructor
  · intro g s p o
    refine ⟨rfl, rfl, ?_⟩
    simp [vecInsert, List.count_append]
  · intro g s p o
    constructor
    · simp [hashsetInsert]
    · have : (insert (s, p, o) g).filter (fun t => t = (s, p, o)) =
          {(s, p, o)} := by
        ext x
        simp only [Finset.mem_filter, Finset.mem_insert,
          Finset.mem_singleton]
        constructor
        · intro hx; exact hx.2
        · intro hx; exact ⟨Or.inl hx, hx⟩
      simp [hashsetInsert, this]

/-- C8 counterexample: on a set container already holding the triple,
`insert` is a no-op and `remove` then deletes the pre-existing copy, so
insert-then-remove does not restore the original one-element state. -/
theorem c8_insert_remove_not_idempotent :
    (hashsetRemove
      (hashsetInsert {(ModelTerm.iri "s", ModelTerm.iri "p", ModelTerm.iri "o")}
        (ModelTerm.iri "s") (ModelTerm.iri "p") (ModelTerm.iri "o")).2
      (ModelTerm.iri "s") (ModelTerm.iri "p") (ModelTerm.iri "o")).2 ≠
    {(ModelTerm.iri "s", ModelTerm.iri "p", ModelTerm.iri "o")} := by
  decide

/-- C8 amended: on a set container, `insert` followed by `remove` with
the same triple restores the original state provided the triple was not
already present. -/
theorem c8_insert_remove_restores (g : Finset BoxTriple) (s p o : ModelTerm)
    (h : (s, p, o) ∉ g) :
    (hashsetRemove (hashsetInsert g s p o).2 s p o).2 = g := by
  simp only [hashsetInsert, hashsetRemove]
  exact Finset.erase_insert h

/-- Witness for the amended C8 at the empty set container. -/
theorem c8_insert_remove_restores_witness :
    (hashsetRemove
      (hashsetInsert (∅ : Finset BoxTriple)
        (ModelTerm.iri "s") (ModelTerm.iri "p") (ModelTerm.iri "o")).2
      (ModelTerm.iri "s") (ModelTerm.iri "p") (ModelTerm.iri "o")).2 =
    (∅ : Finset BoxTriple) :=
  c8_insert_remove_restores ∅
    (ModelTerm.iri "s") (ModelTerm.iri "p") (ModelTerm.iri "o") (by decide)

/-- C9: factory interning — a second `get_holder` call with the same
string on the factory state left by the first returns a holder equal to
the first one (holders compare by the string they dereference to, which
is how `Rc<str>`/`Arc<str>` compare). -/
theorem c9_get_holder_interning (f : FactoryState) (txt : String) :
    (get_holder (get_holder f txt).2 txt).1 = (get_holder f txt).1 := by
  unfold get_holder
  cases hf : f.find? (fun h => h == txt) with
  | some holder =>
    simp only [hf]
  | none =>
    simp only [hf, List.find?]
    rw [show (txt == txt) = true by simp]

/-- C10: content preservation — the holder returned by `get_holder`
always dereferences to a string equal to the request, whether it was
freshly created or found among the live entries. -/
theorem c10_get_holder_content (f : FactoryState) (txt : String) :
    (get_holder f txt).1 = txt := by
  unfold get_holder
  cases hf : f.find? (fun h => h == txt) with
  | some holder =>
    have := List.find?_some hf
    simpa using this
  | none => rfl

end Sophia

namespace Sophia

/-! ## The validation regular expressions

`IRI_REGEX` and `IRELATIVE_REF_REGEX` (src/term/iri_rfc3987.rs, lines
214-437) are embedded as regular-expression trees over character
classes, with the standard matching relation. -/

inductive Rx where
  | eps
  | cls (p : Char → Bool)
  | cat (a b : Rx)
  | alt (a b : Rx)
  | star (a : Rx)

def Rx.lit (c : Char) : Rx := .cls (fun d => d == c)

def Rx.opt (a : Rx) : Rx := .alt .eps a

def Rx.plus (a : Rx) : Rx := .cat a (.star a)

/-- `{n}`: exactly `n` repetitions. -/
def Rx.repN : Nat → Rx → Rx
  | 0, _ => .eps
  | n + 1, a => .cat a (Rx.repN n a)

/-- `{0,n}`: up to `n` repetitions. -/
def Rx.repUpTo : Nat → Rx → Rx
  | 0, _ => .eps
  | n + 1, a => .opt (.cat a (Rx.repUpTo n a))

/-- `{m,n}`: between `m` and `n` repetitions. -/
def Rx.repRange (m n : Nat) (a : Rx) : Rx :=
  .cat (Rx.repN m a) (Rx.repUpTo (n - m) a)

/-- The words of a regular expression. -/
inductive RxMatch : Rx → List Char → Prop where
  | eps : RxMatch .eps []
  | cls {p : Char → Bool} {c : Char} : p c = true → RxMatch (.cls p) [c]
  | catM {a b : Rx} {u v : List Char} :
      RxMatch a u → RxMatch b v → RxMatch (.cat a b) (u ++ v)
  | altL {a b : Rx} {s : List Char} : RxMatch a s → RxMatch (.alt a b) s
  | altR {a b : Rx} {s : List Char} : RxMatch b s → RxMatch (.alt a b) s
  | starNil {a : Rx} : RxMatch (.star a) []
  | starCons {a : Rx} {u v : List Char} :
      RxMatch a u → RxMatch (.star a) v → RxMatch (.star a) (u ++ v)

theorem RxMatch.eps_inv {s : List Char} (h : RxMatch .eps s) : s = [] := by
  cases h; rfl

theorem RxMatch.cls_inv {p : Char → Bool} {s : List Char}
    (h : RxMatch (.cls p) s) : ∃ c, s = [c] ∧ p c = true := by
  cases h with
  | cls hc => exact ⟨_, rfl, hc⟩

theorem RxMatch.cat_inv {a b : Rx} {s : List Char}
    (h : RxMatch (.cat a b) s) :
    ∃ u v, s = u ++ v ∧ RxMatch a u ∧ RxMatch b v := by
  cases h with
  | catM hu hv => exact ⟨_, _, rfl, hu, hv⟩

theorem RxMatch.alt_inv {a b : Rx} {s : List Char}
    (h : RxMatch (.alt a b) s) : RxMatch a s ∨ RxMatch b s := by
  cases h with
  | altL h => exact Or.inl h
  | altR h => exact Or.inr h

theorem RxMatch.lit_inv {c : Char} {s : List Char}
    (h : RxMatch (.lit c) s) : s = [c] := by
  obtain ⟨d, rfl, hd⟩ := h.cls_inv
  rw [show d = c from by simpa using hd]

/-- Every character of every word of `star a` satisfies `P`, provided
the same holds of `a`. -/
theorem RxMatch.star_chars {a : Rx} {P : Char → Prop}
    (ha : ∀ t, RxMatch a t → ∀ c ∈ t, P c) :
    ∀ {s : List Char}, RxMatch (.star a) s → ∀ c ∈ s, P c := by
  intro s h
  generalize hr : Rx.star a = r at h
  induction h with
  | eps => cases hr
  | cls _ => cases hr
  | catM _ _ _ _ => cases hr
  | altL _ _ => cases hr
  | altR _ _ => cases hr
  | starNil => intro c hc; cases hc
  | starCons hu hv ihu ihv =>
    cases hr
    intro c hc
    rcases List.mem_append.mp hc with hc | hc
    · exact ha _ hu c hc
    · exact ihv rfl c hc

end Sophia

namespace Sophia

/-- `pct-encoded`: `%` HEXDIG HEXDIG. -/
def pctRx : Rx := .cat (.lit '%') (.cat (.cls isHexDig) (.cls isHexDig))

/-- `( [class] | %HH )*`, the shape of userinfo, reg-name and segments
in both regexes. -/
def starClsPct (p : Char → Bool) : Rx := .star (.alt (.cls p) pctRx)

/-- `( [class] | %HH )+`. -/
def plusClsPct (p : Char → Bool) : Rx := .plus (.alt (.cls p) pctRx)

/-- `[A-Za-z][-A-Za-z0-9+.]*` (scheme). -/
def schemeRx : Rx := .cat (.cls isAlphaCh) (.star (.cls isSchemeChar))

def h16Rx : Rx := .repRange 1 4 (.cls isHexDig)

def h16ColonRx : Rx := .cat h16Rx (.lit ':')

/-- `[0-9] | [1-9][0-9] | 1[0-9]{2} | 2[0-4][0-9] | 25[0-5]`. -/
def decOctetRx : Rx :=
  .alt (.cls isDigitCh)
    (.alt (.cat (.cls (fun c => decide ('1' ≤ c ∧ c ≤ '9'))) (.cls isDigitCh))
      (.alt (.cat (.lit '1') (.cat (.cls isDigitCh) (.cls isDigitCh)))
        (.alt (.cat (.lit '2')
            (.cat (.cls (fun c => decide ('0' ≤ c ∧ c ≤ '4'))) (.cls isDigitCh)))
          (.cat (.lit '2') (.cat (.lit '5')
            (.cls (fun c => decide ('0' ≤ c ∧ c ≤ '5'))))))))

def ipv4Rx : Rx := .cat decOctetRx (.repN 3 (.cat (.lit '.') decOctetRx))

/-- `ls32 = h16 ":" h16 | IPv4address`. -/
def ls32Rx : Rx := .alt (.cat h16Rx (.cat (.lit ':') h16Rx)) ipv4Rx

def dcolonRx : Rx := .cat (.lit ':') (.lit ':')

/-- `( (h16 ":"){0,k} ":" h16 )?` — the optional prefixes of the
compressed IPv6 alternatives, transcribed as the source regex spells
them. -/
def ipv6PreRx (k : Nat) : Rx :=
  .opt (.cat (.repRange 0 k h16ColonRx) (.cat (.lit ':') h16Rx))

/-- The nine-alternative `ipv6address` as spelled in the source
regexes (src/term/iri_rfc3987.rs, lines 232-271 and 342-381). -/
def ipv6Rx : Rx :=
  .alt (.cat (.repN 6 h16ColonRx) ls32Rx)
  (.alt (.cat dcolonRx (.cat (.repN 5 h16ColonRx) ls32Rx))
  (.alt (.cat (.opt h16Rx) (.cat dcolonRx (.cat (.repN 4 h16ColonRx) ls32Rx)))
  (.alt (.cat (ipv6PreRx 1) (.cat dcolonRx (.cat (.repN 3 h16ColonRx) ls32Rx)))
  (.alt (.cat (ipv6PreRx 2) (.cat dcolonRx (.cat (.repN 2 h16ColonRx) ls32Rx)))
  (.alt (.cat (ipv6PreRx 3) (.cat dcolonRx (.cat h16ColonRx ls32Rx)))
  (.alt (.cat (ipv6PreRx 4) (.cat dcolonRx ls32Rx))
  (.alt (.cat (ipv6PreRx 5) (.cat dcolonRx h16Rx))
        (.cat (ipv6PreRx 6) dcolonRx))))))))

/-- `v[0-9a-fA-F]+ "." [-A-Za-z0-9._~!$&'()*+,;=:]+`. -/
def ipvFutureRx : Rx :=
  .cat (.lit 'v') (.cat (.plus (.cls isHexDig))
    (.cat (.lit '.') (.plus (.cls isIpvFutureChar))))

def ipLiteralRx : Rx :=
  .cat (.lit '[') (.cat (.alt ipv6Rx ipvFutureRx) (.lit ']'))

def iregNameRx : Rx := starClsPct isIregNameChar

def ihostRx : Rx := .alt ipLiteralRx (.alt ipv4Rx iregNameRx)

def iuserinfoRx : Rx := starClsPct isIuserinfoChar

def portRx : Rx := .star (.cls isDigitCh)

def iauthorityRx : Rx :=
  .cat (.opt (.cat iuserinfoRx (.lit '@')))
    (.cat ihostRx (.opt (.cat (.lit ':') portRx)))

def isegmentRx : Rx := starClsPct isIpchar

/-- `( "/" isegment )*`. -/
def ipathAbemptyRx : Rx := .star (.cat (.lit '/') isegmentRx)

/-- `"/" ( isegment ( "/" isegment )* )?` as spelled in the source
regexes (the first inner segment is a `*`-repetition there). -/
def ipathAbsoluteRx : Rx :=
  .cat (.lit '/') (.opt (.cat isegmentRx ipathAbemptyRx))

def ipathRootlessRx : Rx := .cat (plusClsPct isIpchar) ipathAbemptyRx

def ipathNoschemeRx : Rx := .cat (plusClsPct isIsegNzNcChar) ipathAbemptyRx

/-- `"//" iauthority ipath_abempty`. -/
def authorityFormRx : Rx :=
  .cat (.lit '/') (.cat (.lit '/') (.cat iauthorityRx ipathAbemptyRx))

/-- `( "?" [query-class]* )?` body; the query class of the source
regexes admits no pct-escapes, `/`, `?` and `iprivate` included. -/
def queryGroupRx : Rx := .cat (.lit '?') (.star (.cls isIqueryChar))

def fragGroupRx : Rx := .cat (.lit '#') (.star (.cls isIfragmentChar))

/-- `IRI_REGEX` (src/term/iri_rfc3987.rs, lines 215-326), anchored. -/
def IRI_REGEX : Rx :=
  .cat schemeRx (.cat (.lit ':')
    (.cat (.opt (.alt authorityFormRx (.alt ipathAbsoluteRx ipathRootlessRx)))
      (.cat (.opt queryGroupRx) (.opt fragGroupRx))))

/-- `IRELATIVE_REF_REGEX` (src/term/iri_rfc3987.rs, lines 328-436),
anchored. -/
def IRELATIVE_REF_REGEX : Rx :=
  .cat (.opt (.alt authorityFormRx (.alt ipathAbsoluteRx ipathNoschemeRx)))
    (.cat (.opt queryGroupRx) (.opt fragGroupRx))

/-- `is_absolute_iri` (src/term/iri_rfc3987.rs, lines 17-20). -/
def is_absolute_iri (txt : String) : Prop := RxMatch IRI_REGEX txt.data

/-- `is_relative_iri` (src/term/iri_rfc3987.rs, lines 22-26). -/
def is_relative_iri (txt : String) : Prop := RxMatch IRELATIVE_REF_REGEX txt.data

end Sophia

namespace Sophia

/-! ## The two grammars are mutually exclusive

In a word of `IRI_REGEX` the first `:` is preceded by scheme characters
only — in particular by none of `/`, `?`, `#` — while in a word of
`IRELATIVE_REF_REGEX` every `:` is preceded by one of `/`, `?`, `#`. -/

/-- One of the three delimiters that any `:` of a relative reference
must hide behind. -/
def sepChar (c : Char) : Prop := c = '/' ∨ c = '?' ∨ c = '#'

instance (c : Char) : Decidable (sepChar c) := by
  unfold sepChar; infer_instance

/-- Every occurrence of `:` in `s` has some `/`, `?` or `#` strictly
before it. -/
def Guarded (s : List Char) : Prop :=
  ∀ u v : List Char, s = u ++ ':' :: v → ∃ c ∈ u, sepChar c

theorem guarded_nil : Guarded [] := by
  intro u v h
  exact absurd h (by simp)

theorem guarded_of_no_colon {s : List Char} (h : (':' : Char) ∉ s) :
    Guarded s := by
  intro u v he
  subst he
  simp at h

theorem guarded_sep_head {c : Char} {s : List Char} (hc : sepChar c) :
    Guarded (c :: s) := by
  intro u v he
  cases u with
  | nil =>
    rw [List.nil_append] at he
    obtain ⟨he1, _⟩ := List.cons.inj he
    rw [he1] at hc
    exact absurd hc (by decide)
  | cons d u2 =>
    obtain ⟨he1, _⟩ := List.cons.inj he
    exact ⟨d, List.mem_cons_self d u2, he1 ▸ hc⟩

theorem guarded_append {x y : List Char} (hx : Guarded x) (hy : Guarded y) :
    Guarded (x ++ y) := by
  intro u v he
  rcases List.append_eq_append_iff.mp he with ⟨w, hw1, hw2⟩ | ⟨w, hw1, hw2⟩
  · obtain ⟨c, hcw, hcs⟩ := hy w v hw2
    exact ⟨c, hw1 ▸ List.mem_append.mpr (Or.inr hcw), hcs⟩
  · cases w with
    | nil =>
      rw [List.nil_append] at hw2
      obtain ⟨c, hc, _⟩ := hy [] v hw2.symm
      cases hc
    | cons e w2 =>
      obtain ⟨he1, he2⟩ := List.cons.inj hw2.symm
      rw [he1] at hw1
      obtain ⟨c, hcu, hcs⟩ := hx u w2 hw1
      exact ⟨c, hcu, hcs⟩

theorem guarded_star {a : Rx} (ha : ∀ t, RxMatch a t → Guarded t) :
    ∀ {s : List Char}, RxMatch (.star a) s → Guarded s := by
  intro s h
  generalize hr : Rx.star a = r at h
  induction h with
  | eps => cases hr
  | cls _ => cases hr
  | catM _ _ _ _ => cases hr
  | altL _ _ => cases hr
  | altR _ _ => cases hr
  | starNil => exact guarded_nil
  | starCons hu hv ihu ihv =>
    cases hr
    exact guarded_append (ha _ hu) (ihv rfl)

theorem guarded_opt {a : Rx} (ha : ∀ t, RxMatch a t → Guarded t)
    {s : List Char} (h : RxMatch (.opt a) s) : Guarded s := by
  rcases h.alt_inv with h | h
  · rw [h.eps_inv]; exact guarded_nil
  · exact ha _ h

/-- Words of a `( [class] | %HH )` unit consist of class characters,
`%`, and hexadecimal digits. -/
theorem clsPct_unit_chars {p : Char → Bool} (t : List Char)
    (h : RxMatch (.alt (.cls p) pctRx) t) :
    ∀ c ∈ t, p c = true ∨ c = '%' ∨ isHexDig c = true := by
  rcases h.alt_inv with h | h
  · obtain ⟨c, rfl, hc⟩ := h.cls_inv
    intro d hd
    rw [List.mem_singleton.mp hd]
    exact Or.inl hc
  · obtain ⟨u, v, rfl, hu, hv⟩ := h.cat_inv
    obtain ⟨v1, v2, rfl, hv1, hv2⟩ := hv.cat_inv
    obtain ⟨c1, rfl, hc1⟩ := hv1.cls_inv
    obtain ⟨c2, rfl, hc2⟩ := hv2.cls_inv
    rw [hu.lit_inv]
    intro d hd
    rcases List.mem_cons.mp hd with rfl | hd
    · exact Or.inr (Or.inl rfl)
    · rcases List.mem_cons.mp hd with rfl | hd
      · exact Or.inr (Or.inr hc1)
      · rw [List.mem_singleton.mp hd]
        exact Or.inr (Or.inr hc2)

theorem starClsPct_no_colon {p : Char → Bool} (hp : p ':' = false)
    {s : List Char} (h : RxMatch (starClsPct p) s) : (':' : Char) ∉ s := by
  intro hc
  rcases RxMatch.star_chars clsPct_unit_chars h ':' hc with h1 | h1 | h1
  · rw [hp] at h1; cases h1
  · exact absurd h1 (by decide)
  · rw [show isHexDig ':' = false from by decide] at h1; cases h1

theorem plusClsPct_no_colon {p : Char → Bool} (hp : p ':' = false)
    {s : List Char} (h : RxMatch (plusClsPct p) s) : (':' : Char) ∉ s := by
  obtain ⟨u, v, rfl, hu, hv⟩ := h.cat_inv
  intro hc
  rcases List.mem_append.mp hc with hc | hc
  · rcases clsPct_unit_chars u hu ':' hc with h1 | h1 | h1
    · rw [hp] at h1; cases h1
    · exact absurd h1 (by decide)
    · rw [show isHexDig ':' = false from by decide] at h1; cases h1
  · exact starClsPct_no_colon hp hv hc

theorem abempty_guarded {s : List Char} (h : RxMatch ipathAbemptyRx s) :
    Guarded s := by
  refine guarded_star (fun t ht => ?_) h
  obtain ⟨u, v, rfl, hu, _⟩ := ht.cat_inv
  rw [hu.lit_inv]
  exact guarded_sep_head (Or.inl rfl)

theorem authorityForm_guarded {s : List Char}
    (h : RxMatch authorityFormRx s) : Guarded s := by
  obtain ⟨u, v, rfl, hu, _⟩ := h.cat_inv
  rw [hu.lit_inv]
  exact guarded_sep_head (Or.inl rfl)

theorem absolute_guarded {s : List Char} (h : RxMatch ipathAbsoluteRx s) :
    Guarded s := by
  obtain ⟨u, v, rfl, hu, _⟩ := h.cat_inv
  rw [hu.lit_inv]
  exact guarded_sep_head (Or.inl rfl)

theorem noscheme_guarded {s : List Char} (h : RxMatch ipathNoschemeRx s) :
    Guarded s := by
  obtain ⟨u, v, rfl, hu, hv⟩ := h.cat_inv
  exact guarded_append
    (guarded_of_no_colon (plusClsPct_no_colon (by decide) hu))
    (abempty_guarded hv)

theorem query_guarded {s : List Char} (h : RxMatch queryGroupRx s) :
    Guarded s := by
  obtain ⟨u, v, rfl, hu, _⟩ := h.cat_inv
  rw [hu.lit_inv]
  exact guarded_sep_head (Or.inr (Or.inl rfl))

theorem frag_guarded {s : List Char} (h : RxMatch fragGroupRx s) :
    Guarded s := by
  obtain ⟨u, v, rfl, hu, _⟩ := h.cat_inv
  rw [hu.lit_inv]
  exact guarded_sep_head (Or.inr (Or.inr rfl))

/-- In a word of the relative-reference grammar, every `:` hides behind
a `/`, `?` or `#`. -/
theorem irelative_guarded {s : List Char}
    (h : RxMatch IRELATIVE_REF_REGEX s) : Guarded s := by
  obtain ⟨u1, r, rfl, hu1, hr⟩ := h.cat_inv
  obtain ⟨u2, u3, rfl, hu2, hu3⟩ := hr.cat_inv
  refine guarded_append ?_ (guarded_append ?_ ?_)
  · refine guarded_opt (fun t ht => ?_) hu1
    rcases ht.alt_inv with ht | ht
    · exact authorityForm_guarded ht
    · rcases ht.alt_inv with ht | ht
      · exact absolute_guarded ht
      · exact noscheme_guarded ht
  · exact guarded_opt (fun t ht => query_guarded ht) hu2
  · exact guarded_opt (fun t ht => frag_guarded ht) hu3

/-- In a word of the absolute-IRI grammar, the scheme's `:` is preceded
by scheme characters only — never by `/`, `?` or `#`. -/
theorem iri_scheme_split {s : List Char} (h : RxMatch IRI_REGEX s) :
    ∃ u v, s = u ++ ':' :: v ∧ ∀ c ∈ u, ¬ sepChar c := by
  obtain ⟨sch, r, rfl, hsch, hr⟩ := h.cat_inv
  obtain ⟨co, r2, rfl, hco, _⟩ := hr.cat_inv
  rw [hco.lit_inv]
  refine ⟨sch, r2, by simp, ?_⟩
  obtain ⟨h0, t, rfl, hh, ht⟩ := hsch.cat_inv
  obtain ⟨c0, rfl, hc0⟩ := hh.cls_inv
  intro c hc hsep
  have hclass : isAlphaCh c = true ∨ isSchemeChar c = true := by
    rcases List.mem_cons.mp hc with rfl | hc
    · exact Or.inl hc0
    · rcases List.mem_singleton.mp (List.mem_singleton.mpr rfl) with _
      exact Or.inr (RxMatch.star_chars
        (fun t2 ht2 c2 hc2 => by
          obtain ⟨c3, rfl, hc3⟩ := ht2.cls_inv
          rw [List.mem_singleton.mp hc2]; exact hc3) ht c hc)
  rcases hsep with rfl | rfl | rfl
  · rcases hclass with h1 | h1 <;> (revert h1; decide)
  · rcases hclass with h1 | h1 <;> (revert h1; decide)
  · rcases hclass with h1 | h1 <;> (revert h1; decide)

end Sophia

namespace Sophia

/-- C6: the absolute-IRI grammar and the relative-reference grammar are
mutually exclusive — no string matches both `IRI_REGEX` and
`IRELATIVE_REF_REGEX`.  An absolute match puts a `:` after the scheme
with no `/`, `?` or `#` before it; a relative match guards every `:`
with one of those delimiters. -/
theorem c6_grammars_mutually_exclusive (txt : String)
    (habs : is_absolute_iri txt) : ¬ is_relative_iri txt := by
  intro hrel
  obtain ⟨u, v, he, hu⟩ := iri_scheme_split habs
  obtain ⟨c, hcu, hsep⟩ := irelative_guarded hrel u v he
  exact hu c hcu hsep

theorem starCls_of_all (p : Char → Bool) :
    ∀ s : List Char, (∀ c ∈ s, p c = true) → RxMatch (.star (.cls p)) s
  | [], _ => .starNil
  | c :: cs, h =>
    RxMatch.starCons (u := [c]) (v := cs)
      (RxMatch.cls (h c (List.mem_cons_self c cs)))
      (starCls_of_all p cs (fun d hd => h d (List.mem_cons_of_mem c hd)))

/-- Witness: `"http:"` matches the absolute grammar, hence not the
relative one. -/
theorem c6_grammars_mutually_exclusive_witness :
    ¬ is_relative_iri "http:" := by
  apply c6_grammars_mutually_exclusive
  show RxMatch IRI_REGEX "http:".data
  rw [show "http:".data = ['h', 't', 't', 'p', ':'] from by decide]
  have hsch : RxMatch schemeRx ['h', 't', 't', 'p'] :=
    RxMatch.catM (u := ['h']) (v := ['t', 't', 'p'])
      (RxMatch.cls (by decide))
      (starCls_of_all isSchemeChar ['t', 't', 'p'] (by decide))
  have hemp : RxMatch
      (Rx.cat (.opt (.alt authorityFormRx (.alt ipathAbsoluteRx ipathRootlessRx)))
        (.cat (.opt queryGroupRx) (.opt fragGroupRx))) [] :=
    RxMatch.catM (u := []) (v := [])
      (RxMatch.altL RxMatch.eps)
      (RxMatch.catM (u := []) (v := [])
        (RxMatch.altL RxMatch.eps) (RxMatch.altL RxMatch.eps))
  exact RxMatch.catM hsch
    (RxMatch.catM (u := [':']) (RxMatch.cls (by decide)) hemp)

end Sophia

namespace Sophia

/-! ## Conformance of the modelled parser with the repository fixtures

The decompositions expected by the source's `POSITIVE_IRIS`,
`NEGATIVE_IRIS` and `RELATIVE_IRIS` test fixtures
(src/term/iri_rfc3987.rs, lines 499-612), evaluated on the model. -/

theorem fixture_scheme_only :
    ParsedIri.new "http:" =
      some { scheme := some ['h','t','t','p'] } := by decide

theorem fixture_authority :
    ParsedIri.new "http://example.org" =
      some { scheme := some ['h','t','t','p'],
             authority := some ['e','x','a','m','p','l','e','.','o','r','g'] } := by
  decide

theorem fixture_ipv6_host :
    ParsedIri.new "http://[::]" =
      some { scheme := some ['h','t','t','p'],
             authority := some ['[',':',':',']'] } := by decide

theorem fixture_userinfo_port :
    ParsedIri.new "http://user:pw@example.org:1234/" =
      some { scheme := some ['h','t','t','p'],
             authority := some ['u','s','e','r',':','p','w','@','e','x','a',
               'm','p','l','e','.','o','r','g',':','1','2','3','4'],
             path := [[], []] } := by decide

theorem fixture_path_segments :
    ParsedIri.new "http://example.org/foo/bar/" =
      some { scheme := some ['h','t','t','p'],
             authority := some ['e','x','a','m','p','l','e','.','o','r','g'],
             path := [[], ['f','o','o'], ['b','a','r'], []] } := by decide

theorem fixture_query_fragment :
    ParsedIri.new "http://example.org/?abc#def" =
      some { scheme := some ['h','t','t','p'],
             authority := some ['e','x','a','m','p','l','e','.','o','r','g'],
             path := [[], []], query := some ['a','b','c'],
             fragment := some ['d','e','f'] } := by decide

theorem fixture_rootless :
    ParsedIri.new "tag:abc/def" =
      some { scheme := some ['t','a','g'],
             path := [['a','b','c'], ['d','e','f']] } := by decide

theorem fixture_relative_noscheme :
    ParsedIri.new "foo" = some { path := [['f','o','o']] } := by decide

theorem fixture_relative_dotdot :
    ParsedIri.new ".." = some { path := [['.','.']] } := by decide

theorem fixture_relative_authority :
    ParsedIri.new "//example.org" =
      some { authority := some ['e','x','a','m','p','l','e','.','o','r','g'] } := by
  decide

theorem fixture_query_frag_only :
    ParsedIri.new "?#" =
      some { query := some [], fragment := some [] } := by decide

theorem fixture_negatives :
    ParsedIri.new "http://[/" = none ∧
    ParsedIri.new "http://a/[" = none ∧
    ParsedIri.new "http://a/]" = none ∧
    ParsedIri.new "http://a/|" = none ∧
    ParsedIri.new "http://a/ " = none ∧
    ParsedIri.new "[" = none ∧
    ParsedIri.new "]" = none ∧
    ParsedIri.new " " = none := by
  refine ⟨by decide, by decide, by decide, by decide, by decide,
    by decide, by decide, by decide⟩

theorem fixture_positive_roundtrips :
    (ParsedIri.new "http://example.org/foo/bar/baz").map
      ParsedIri.to_string = some "http://example.org/foo/bar/baz" ∧
    (ParsedIri.new "http://example.org/foo/.././/bar").map
      ParsedIri.to_string = some "http://example.org/foo/.././/bar" ∧
    (ParsedIri.new "tag:abc/def").map ParsedIri.to_string =
      some "tag:abc/def" ∧
    (ParsedIri.new "//example.org").map ParsedIri.to_string =
      some "//example.org" := by
  refine ⟨by decide, by decide, by decide, by decide⟩

theorem fixture_join_normal :
    ((ParsedIri.new "http://a/b/c/d;p?q").bind (fun b =>
      (ParsedIri.new "g?y#s").map (fun r => (b.join r).to_string)) =
        some "http://a/b/c/g?y#s") ∧
    ((ParsedIri.new "http://a/b/c/d;p?q").bind (fun b =>
      (ParsedIri.new "//g").map (fun r => (b.join r).to_string)) =
        some "http://g") ∧
    ((ParsedIri.new "http://a/b/c/d;p?q").bind (fun b =>
      (ParsedIri.new "g:h").map (fun r => (b.join r).to_string)) =
        some "g:h") ∧
    ((ParsedIri.new "http://a/b/c/d;p?q").bind (fun b =>
      (ParsedIri.new "./g/.").map (fun r => (b.join r).to_string)) =
        some "http://a/b/c/g/") := by
  refine ⟨by decide, by decide, by decide, by decide⟩

end Sophia
